import Mathlib

/-
Verification of the Fleet Dispatcher subsystem (FleetManagerAgent) of the
common-agents toolkit.  The data model and every state-mutating method are
embedded as pure functions over an explicit `FleetState`; the asynchronous
dispatch loop of `processBatch` is embedded as a small-step machine whose
actions correspond to the suspension points of the source
(src/src/agents/base/FleetManagerAgent.ts).
-/

namespace FleetVerif

/-- Association-list store modelling a JS `Record<K, V>`: `set` replaces the
first binding of the key if present, otherwise appends a fresh binding. -/
def Store.get [DecidableEq α] (l : List (α × β)) (k : α) : Option β :=
  match l with
  | [] => none
  | kv :: rest => if kv.1 = k then some kv.2 else Store.get rest k

def Store.set [DecidableEq α] (l : List (α × β)) (k : α) (v : β) : List (α × β) :=
  match l with
  | [] => [(k, v)]
  | kv :: rest => if kv.1 = k then (k, v) :: rest else kv :: Store.set rest k v

def Store.erase [DecidableEq α] (l : List (α × β)) (k : α) : List (α × β) :=
  match l with
  | [] => []
  | kv :: rest => if kv.1 = k then rest else kv :: Store.erase rest k

/-- Number of bindings whose value satisfies `q`. -/
def Store.countQ [DecidableEq α] (q : β → Bool) (l : List (α × β)) : Nat :=
  (l.filter (fun kv => q kv.2)).length

/-- Task (src/src/agents/base/WorkerAgent.ts, interface Task).  The generic
payload `data` is irrelevant to the dispatcher and elided; `retries` is the
optional attempt counter, read by the source as `task.retries || 0`. -/
structure Task where
  id : String
  type : String
  priority : Option Nat := none
  timeout : Option Nat := none
  retries : Option Nat := none
deriving DecidableEq, Repr

/-- `task.retries || 0` -/
def Task.retriesOrZero (t : Task) : Nat := t.retries.getD 0

/-- TaskResult (src/src/agents/base/WorkerAgent.ts).  The generic payload of
`result` is modelled as an opaque string. -/
structure TaskResult where
  taskId : String
  success : Bool
  result : Option String := none
  error : Option String := none
  duration : Nat := 0
  timestamp : Nat := 0
deriving DecidableEq, Repr

/-- BatchStatus (FleetManagerAgent.ts lines 9-14).  The source string
"partial" is modelled by the constructor `mixed`. -/
inductive BatchStatus where
  | pending
  | processing
  | completed
  | failed
  | mixed
deriving DecidableEq, Repr

/-- Batch (FleetManagerAgent.ts lines 19-31). -/
structure Batch where
  id : String
  tasks : List Task
  status : BatchStatus
  createdAt : Nat
  startedAt : Option Nat := none
  completedAt : Option Nat := none
  results : List TaskResult
  totalTasks : Nat
  completedTasks : Nat
  failedTasks : Nat
  workerIds : List Nat
deriving DecidableEq, Repr

inductive WorkerStatus where
  | spawning
  | active
  | completed
  | failed
deriving DecidableEq, Repr

def WorkerStatus.isActive : WorkerStatus → Bool
  | .active => true
  | _ => false

/-- WorkerInfo (FleetManagerAgent.ts lines 36-42).  Worker ids are strings
produced by `generateId`; their only relevant property is uniqueness, so they
are modelled as naturals drawn from a counter. -/
structure WorkerInfo where
  id : Nat
  taskId : Option String := none
  status : WorkerStatus
  spawnedAt : Nat
  completedAt : Option Nat := none
deriving DecidableEq, Repr

/-- FleetManagerConfig (lines 47-52); all fields are optional in the source
but initialised with defaults and read with non-null assertions, so they are
modelled as present. -/
structure FleetManagerConfig where
  maxConcurrentWorkers : Nat
  workerTimeout : Nat
  retryFailedTasks : Bool
  maxRetries : Nat
deriving DecidableEq, Repr

structure FleetStats where
  totalBatches : Nat
  totalTasks : Nat
  completedTasks : Nat
  failedTasks : Nat
  activeWorkers : Int
deriving DecidableEq, Repr

/-- FleetManagerAgentState (lines 57-68), restricted to the fields the
dispatcher uses. -/
structure FleetState where
  batches : List (String × Batch)
  workers : List (Nat × WorkerInfo)
  config : FleetManagerConfig
  stats : FleetStats
deriving DecidableEq, Repr

/-- State effect of `submitBatch` before it starts processing
(lines 142-171): create the pending batch record and bump the aggregate
stats.  Identifier generation (`generateBatchId`) is external; the fresh id
is passed in. -/
def submitBatch (s : FleetState) (batchId : String) (tasks : List Task)
    (now : Nat) : FleetState :=
  let batch : Batch :=
    { id := batchId
      tasks := tasks
      status := .pending
      createdAt := now
      results := []
      totalTasks := tasks.length
      completedTasks := 0
      failedTasks := 0
      workerIds := [] }
  { s with
    batches := Store.set s.batches batchId batch
    stats := { s.stats with
      totalBatches := s.stats.totalBatches + 1
      totalTasks := s.stats.totalTasks + tasks.length } }

/-- `updateBatch` (lines 414-431): merge an update into the stored batch,
no-op when the id is unknown.  Each call site's partial update is the
function `f`. -/
def updateBatchWith (s : FleetState) (batchId : String) (f : Batch → Batch) :
    FleetState :=
  match Store.get s.batches batchId with
  | none => s
  | some b => { s with batches := Store.set s.batches batchId (f b) }

/-- The `updateBatch` call at the top of `processBatch` (lines 191-194). -/
def processStart (s : FleetState) (batchId : String) (now : Nat) : FleetState :=
  updateBatchWith s batchId
    (fun b => { b with status := .processing, startedAt := some now })

/-- `registerWorker` (lines 321-344): insert the handle and increment the
global active-worker counter unconditionally. -/
def registerWorker (s : FleetState) (workerId : Nat) (taskId : String)
    (status : WorkerStatus) (now : Nat) : FleetState :=
  let workerInfo : WorkerInfo :=
    { id := workerId, taskId := some taskId, status := status, spawnedAt := now }
  { s with
    workers := Store.set s.workers workerId workerInfo
    stats := { s.stats with activeWorkers := s.stats.activeWorkers + 1 } }

/-- `updateWorkerStatus` (lines 349-377): overwrite status and completedAt,
decrementing the active-worker counter exactly on a terminal status. -/
def updateWorkerStatus (s : FleetState) (workerId : Nat)
    (status : WorkerStatus) (completedAt : Option Nat) : FleetState :=
  match Store.get s.workers workerId with
  | none => s
  | some w =>
    let updatedWorker : WorkerInfo :=
      { w with status := status, completedAt := completedAt }
    let activeWorkerDelta : Int :=
      if status = WorkerStatus.completed ∨ status = WorkerStatus.failed
      then -1 else 0
    { s with
      workers := Store.set s.workers workerId updatedWorker
      stats := { s.stats with
        activeWorkers := s.stats.activeWorkers + activeWorkerDelta } }

/-- `[...new Set([...batch.workerIds, workerId])]` (line 397). -/
def insertWorkerId (ids : List Nat) (workerId : Nat) : List Nat :=
  if workerId ∈ ids then ids else ids ++ [workerId]

/-- `recordTaskResult` (lines 382-409): append the result, apply the count
deltas to the batch and to the global stats; no-op when the batch id is
unknown.  There is no check of the batch's status. -/
def recordTaskResult (s : FleetState) (batchId : String) (workerId : Nat)
    (result : TaskResult) : FleetState :=
  match Store.get s.batches batchId with
  | none => s
  | some _ =>
    let completedDelta := if result.success then 1 else 0
    let failedDelta := if result.success then 0 else 1
    let s1 := updateBatchWith s batchId (fun b =>
      { b with
        results := b.results ++ [result]
        completedTasks := b.completedTasks + completedDelta
        failedTasks := b.failedTasks + failedDelta
        workerIds := insertWorkerId b.workerIds workerId })
    { s1 with stats := { s1.stats with
        completedTasks := s1.stats.completedTasks + completedDelta
        failedTasks := s1.stats.failedTasks + failedDelta } }

/-- The failure TaskResult built in the catch branch of `spawnWorker`
(lines 260-266); `spawnedAt` is the `now` captured at the top of
`spawnWorker`. -/
def failureResult (t : Task) (msg : String) (spawnedAt now : Nat) : TaskResult :=
  { taskId := t.id
    success := false
    error := some msg
    duration := now - spawnedAt
    timestamp := now }

/-- The retry-eligibility test of lines 274-277. -/
def retryEligible (cfg : FleetManagerConfig) (t : Task) : Bool :=
  cfg.retryFailedTasks && decide (t.retriesOrZero < cfg.maxRetries)

/-- The retried task of lines 278-281. -/
def retryTask (t : Task) : Task :=
  { t with retries := some (t.retriesOrZero + 1) }

/-- The re-queue block of lines 273-291: when the failed task is still
retry-eligible, append the retried task to the persisted batch's task list
and increment `totalTasks`.  Nothing else is touched — in particular not the
local task queue of `processBatch`. -/
def admitRetry (s : FleetState) (batchId : String) (t : Task) : FleetState :=
  if retryEligible s.config t then
    updateBatchWith s batchId (fun b =>
      { b with
        tasks := b.tasks ++ [retryTask t]
        totalTasks := b.totalTasks + 1 })
  else s

/-- The whole synchronous catch block of `spawnWorker` (lines 255-292):
record the failure result, mark the worker failed (the source passes the
spawn-time `now` as `completedAt`), then maybe admit a retry. -/
def spawnWorkerFailurePath (s : FleetState) (batchId : String)
    (workerId : Nat) (t : Task) (msg : String) (spawnedAt now : Nat) :
    FleetState :=
  let s1 := recordTaskResult s batchId workerId (failureResult t msg spawnedAt now)
  let s2 := updateWorkerStatus s1 workerId .failed (some spawnedAt)
  admitRetry s2 batchId t

/-- The nested conditional of `finalizeBatch` (lines 444-449). -/
def finalStatusOf (completedTasks failedTasks : Nat) : BatchStatus :=
  if failedTasks = 0 then .completed
  else if completedTasks = 0 then .failed
  else .mixed

/-- Modelled from the spec: §3's terminal-status rule, "Terminal status is a
pure function of final counts: failedTasks = 0 → completed;
completedTasks = 0 → failed; otherwise partial" (partial = `mixed` here). -/
def specTerminalStatus (completedTasks failedTasks : Nat) : BatchStatus :=
  if failedTasks = 0 then BatchStatus.completed
  else if completedTasks = 0 then BatchStatus.failed
  else BatchStatus.mixed

/-- `finalizeBatch` (lines 436-460): when every counted task is resolved
(`completedTasks + failedTasks >= totalTasks`) set the terminal status and
`completedAt`.  There is no check that the batch is not already terminal. -/
def finalizeBatch (s : FleetState) (batchId : String) (now : Nat) : FleetState :=
  match Store.get s.batches batchId with
  | none => s
  | some b =>
    if b.completedTasks + b.failedTasks ≥ b.totalTasks then
      updateBatchWith s batchId (fun b0 =>
        { b0 with
          status := finalStatusOf b.completedTasks b.failedTasks
          completedAt := some now })
    else s

/-- `cancelBatch` (lines 518-534): refuse only when the status is
`completed` or `failed` (a `mixed`/"partial" batch is cancellable), otherwise
overwrite the status with `failed`. -/
def cancelBatch (s : FleetState) (batchId : String) (now : Nat) :
    Bool × FleetState :=
  match Store.get s.batches batchId with
  | none => (false, s)
  | some b =>
    if b.status = BatchStatus.completed ∨ b.status = BatchStatus.failed then
      (false, s)
    else
      (true,
       updateBatchWith s batchId (fun b0 =>
         { b0 with status := .failed, completedAt := some now }))

/-- `scaleWorkers` (lines 542-556): `none` models the thrown validation
error for a count below 1. -/
def scaleWorkers (s : FleetState) (count : Nat) : Option FleetState :=
  if count < 1 then none
  else some { s with config := { s.config with maxConcurrentWorkers := count } }

/-- `updateConfig` (lines 586-596), restricted to a full-record merge. -/
def updateConfig (s : FleetState) (cfg : FleetManagerConfig) : FleetState :=
  { s with config := cfg }

/-- The view returned by `getBatchStatus` (lines 469-493); progress is a
rational, 0 when the batch is empty. -/
structure BatchStatusView where
  status : BatchStatus
  totalTasks : Nat
  completedTasks : Nat
  failedTasks : Nat
  progress : ℚ
deriving DecidableEq, Repr

/-- `getBatchStatus` (lines 468-493); `none` models the thrown NotFound. -/
def getBatchStatus (s : FleetState) (batchId : String) :
    Option BatchStatusView :=
  match Store.get s.batches batchId with
  | none => none
  | some b =>
    some
      { status := b.status
        totalTasks := b.totalTasks
        completedTasks := b.completedTasks
        failedTasks := b.failedTasks
        progress :=
          if b.totalTasks > 0 then
            ((b.completedTasks : ℚ) + (b.failedTasks : ℚ)) / (b.totalTasks : ℚ)
          else 0 }

/-
The dispatch loop of `processBatch` (lines 184-222) together with the
in-flight `spawnWorker` bodies (lines 230-293) is embedded as a small-step
machine.  Within the hosting actor's cooperative model, state can only be
observed or mutated between `await` points; every synchronous `setState`
block of the source becomes one machine step, and the scheduler's freedom
(which in-flight execution resolves first, and which external calls
interleave) becomes the choice of the next action.
-/

/-- Program counter of one in-flight `spawnWorker` body.  `spawning`:
registered, waiting on `getWorkerInstance`; `running`: marked active,
waiting on `executeTaskOnWorker`; the remaining phases walk through the
synchronous mutations performed once the execution has resolved — with a
result (`okRecord` then `okFinish`) or with a thrown error (`errRecord`,
`errMark`, `errRetry`). -/
inductive ProcPhase where
  | spawning
  | running
  | okRecord (r : TaskResult)
  | okFinish
  | errRecord (msg : String)
  | errMark
  | errRetry
deriving DecidableEq, Repr

/-- Whether the worker handle of a proc in this phase currently holds
status `active`. -/
def ProcPhase.workerStatus : ProcPhase → WorkerStatus
  | .spawning => .spawning
  | .errRetry => .failed
  | _ => .active

/-- Whether the proc has not yet executed its `recordTaskResult` call. -/
def ProcPhase.unrecorded : ProcPhase → Bool
  | .spawning => true
  | .running => true
  | .okRecord _ => true
  | .errRecord _ => true
  | _ => false

structure Proc where
  task : Task
  spawnedAt : Nat
  phase : ProcPhase
deriving DecidableEq, Repr

/-- State of one `processBatch(batchId)` invocation between suspension
points: the agent state, the local constants captured at lines 197-199
(`maxConcurrentWorkers` destructured once, the `taskQueue` copied from
`batch.tasks`, the `activeWorkers` set of in-flight promises keyed here by
worker id), plus a counter modelling `generateId`'s uniqueness and a logical
clock standing for `Date.now()`. -/
structure Machine where
  st : FleetState
  batchId : String
  snapLen : Nat
  maxC : Nat
  taskQueue : List Task
  inFlight : List (Nat × Proc)
  nextWorker : Nat
  clock : Nat
deriving DecidableEq, Repr

/-- One scheduler choice. `dispatch` runs one iteration of the inner
spawning loop (lines 203-212); `markActive` resumes a proc whose
`getWorkerInstance` resolved (line 245); `resolveOk`/`resolveErr` choose how
`executeTaskOnWorker` settles; `micro` runs the proc's next synchronous
mutation; `cancelCall`/`scaleCall` are external invocations interleaving at a
yield point; `finalizeCall` is the `finalizeBatch` call at line 221, enabled
exactly when the loop of line 201 has exited. -/
inductive MAction where
  | dispatch
  | markActive (wid : Nat)
  | resolveOk (wid : Nat) (r : TaskResult)
  | resolveErr (wid : Nat) (msg : String)
  | micro (wid : Nat)
  | cancelCall
  | scaleCall (n : Nat)
  | finalizeCall
deriving DecidableEq, Repr

/-- The agent state as `submitBatch` leaves it just before the dispatch loop
starts: the batch stored and marked `processing` (lines 142-174 and
191-194). -/
def initState (tasks : List Task) (cfg : FleetManagerConfig) : FleetState :=
  let s0 : FleetState :=
    { batches := []
      workers := []
      config := cfg
      stats := { totalBatches := 0, totalTasks := 0, completedTasks := 0,
                 failedTasks := 0, activeWorkers := 0 } }
  processStart (submitBatch s0 "b0" tasks 0) "b0" 0

/-- The machine at the top of the dispatch loop: `maxConcurrentWorkers`
destructured once (line 197) and the task queue copied from `batch.tasks`
(line 198). -/
def mkInit (tasks : List Task) (cfg : FleetManagerConfig) : Machine :=
  { st := initState tasks cfg
    batchId := "b0"
    snapLen := tasks.length
    maxC := cfg.maxConcurrentWorkers
    taskQueue := tasks
    inFlight := []
    nextWorker := 0
    clock := 1 }

def applyAction (m : Machine) (a : MAction) : Machine :=
  match a with
  | .dispatch =>
    match m.taskQueue with
    | [] => m
    | t :: rest =>
      if m.inFlight.length < m.maxC then
        { m with
          st := registerWorker m.st m.nextWorker t.id .spawning m.clock
          taskQueue := rest
          inFlight := Store.set m.inFlight m.nextWorker
            { task := t, spawnedAt := m.clock, phase := .spawning }
          nextWorker := m.nextWorker + 1
          clock := m.clock + 1 }
      else m
  | .markActive wid =>
    match Store.get m.inFlight wid with
    | some p =>
      if p.phase = ProcPhase.spawning then
        { m with
          st := updateWorkerStatus m.st wid .active none
          inFlight := Store.set m.inFlight wid { p with phase := .running }
          clock := m.clock + 1 }
      else m
    | none => m
  | .resolveOk wid r =>
    match Store.get m.inFlight wid with
    | some p =>
      if p.phase = ProcPhase.running then
        { m with
          inFlight := Store.set m.inFlight wid { p with phase := .okRecord r }
          clock := m.clock + 1 }
      else m
    | none => m
  | .resolveErr wid msg =>
    match Store.get m.inFlight wid with
    | some p =>
      if p.phase = ProcPhase.running then
        { m with
          inFlight := Store.set m.inFlight wid { p with phase := .errRecord msg }
          clock := m.clock + 1 }
      else m
    | none => m
  | .micro wid =>
    match Store.get m.inFlight wid with
    | some p =>
      match p.phase with
      | .okRecord r =>
        { m with
          st := recordTaskResult m.st m.batchId wid r
          inFlight := Store.set m.inFlight wid { p with phase := .okFinish }
          clock := m.clock + 1 }
      | .okFinish =>
        { m with
          st := updateWorkerStatus m.st wid .completed (some p.spawnedAt)
          inFlight := Store.erase m.inFlight wid
          clock := m.clock + 1 }
      | .errRecord msg =>
        { m with
          st := recordTaskResult m.st m.batchId wid
            (failureResult p.task msg p.spawnedAt m.clock)
          inFlight := Store.set m.inFlight wid { p with phase := .errMark }
          clock := m.clock + 1 }
      | .errMark =>
        { m with
          st := updateWorkerStatus m.st wid .failed (some p.spawnedAt)
          inFlight := Store.set m.inFlight wid { p with phase := .errRetry }
          clock := m.clock + 1 }
      | .errRetry =>
        { m with
          st := admitRetry m.st m.batchId p.task
          inFlight := Store.erase m.inFlight wid
          clock := m.clock + 1 }
      | _ => m
    | none => m
  | .cancelCall =>
    { m with st := (cancelBatch m.st m.batchId m.clock).2, clock := m.clock + 1 }
  | .scaleCall n =>
    match scaleWorkers m.st n with
    | some s => { m with st := s, clock := m.clock + 1 }
    | none => m
  | .finalizeCall =>
    if m.taskQueue.isEmpty && m.inFlight.isEmpty then
      { m with st := finalizeBatch m.st m.batchId m.clock, clock := m.clock + 1 }
    else m

def runMachine (m : Machine) (acts : List MAction) : Machine :=
  acts.foldl applyAction m

theorem Store.get_set_self [DecidableEq α] (l : List (α × β)) (k : α) (v : β) :
    Store.get (Store.set l k v) k = some v := by
  induction l with
  | nil => simp [Store.set, Store.get]
  | cons kv rest ih =>
    by_cases h : kv.1 = k
    · simp [Store.set, Store.get, h]
    · simp [Store.set, Store.get, h, ih]

theorem Store.get_set_ne [DecidableEq α] (l : List (α × β)) {k q : α} (v : β)
    (h : q ≠ k) : Store.get (Store.set l k v) q = Store.get l q := by
  have hq : ¬ k = q := fun hh => h hh.symm
  induction l with
  | nil => simp [Store.set, Store.get, hq]
  | cons kv rest ih =>
    by_cases hk : kv.1 = k
    · subst hk
      simp [Store.set, Store.get, hq]
    · simp only [Store.set, if_neg hk]
      by_cases hkq : kv.1 = q
      · simp [Store.get, hkq]
      · simp [Store.get, hkq, ih]

theorem Store.get_eq_none_iff [DecidableEq α] (l : List (α × β)) (k : α) :
    Store.get l k = none ↔ k ∉ l.map Prod.fst := by
  induction l with
  | nil => simp [Store.get]
  | cons kv rest ih =>
    by_cases h : kv.1 = k
    · simp [Store.get, h]
    · simp only [Store.get, if_neg h, List.map_cons, List.mem_cons, ih]
      constructor
      · intro hk2 hor
        rcases hor with h1 | h1
        · exact h h1.symm
        · exact hk2 h1
      · intro hk2 h1
        exact hk2 (Or.inr h1)

theorem Store.get_absent [DecidableEq α] {l : List (α × β)} {k : α}
    (h : k ∉ l.map Prod.fst) : Store.get l k = none :=
  (Store.get_eq_none_iff l k).mpr h

theorem Store.set_absent [DecidableEq α] {l : List (α × β)} {k : α} (v : β)
    (h : Store.get l k = none) : Store.set l k v = l ++ [(k, v)] := by
  induction l with
  | nil => simp [Store.set]
  | cons kv rest ih =>
    by_cases hk : kv.1 = k
    · simp [Store.get, hk] at h
    · simp [Store.get, hk] at h
      simp [Store.set, hk, ih h]

theorem Store.length_set_present [DecidableEq α] {l : List (α × β)} {k : α}
    {v0 : β} (v : β) (h : Store.get l k = some v0) :
    (Store.set l k v).length = l.length := by
  induction l with
  | nil => simp [Store.get] at h
  | cons kv rest ih =>
    by_cases hk : kv.1 = k
    · simp [Store.set, hk]
    · simp [Store.get, hk] at h
      simp [Store.set, hk, ih h]

theorem Store.keys_set_present [DecidableEq α] {l : List (α × β)} {k : α}
    {v0 : β} (v : β) (h : Store.get l k = some v0) :
    (Store.set l k v).map Prod.fst = l.map Prod.fst := by
  induction l with
  | nil => simp [Store.get] at h
  | cons kv rest ih =>
    by_cases hk : kv.1 = k
    · simp [Store.set, hk]
    · simp [Store.get, hk] at h
      simp [Store.set, hk, ih h]

theorem Store.erase_sublist [DecidableEq α] (l : List (α × β)) (k : α) :
    (Store.erase l k).Sublist l := by
  induction l with
  | nil => simp [Store.erase]
  | cons kv rest ih =>
    by_cases hk : kv.1 = k
    · simp only [Store.erase, if_pos hk]
      exact List.sublist_cons_self kv rest
    · simp only [Store.erase, if_neg hk]
      exact ih.cons₂ kv

theorem Store.mem_set_weak [DecidableEq α] {l : List (α × β)} {k : α} {v : β}
    {kv : α × β} (h : kv ∈ Store.set l k v) : kv ∈ l ∨ kv = (k, v) := by
  induction l with
  | nil => simp [Store.set] at h; right; exact h
  | cons a rest ih =>
    by_cases hk : a.1 = k
    · simp only [Store.set, if_pos hk, List.mem_cons] at h
      rcases h with h | h
      · right; exact h
      · left; exact List.mem_cons_of_mem a h
    · simp only [Store.set, if_neg hk, List.mem_cons] at h
      rcases h with h | h
      · left; exact h ▸ List.mem_cons_self a rest
      · rcases ih h with h2 | h2
        · left; exact List.mem_cons_of_mem a h2
        · right; exact h2

theorem Store.mem_set_cases [DecidableEq α] {l : List (α × β)} {k : α} {v : β}
    {kv : α × β} (hn : (l.map Prod.fst).Nodup) (h : kv ∈ Store.set l k v) :
    (kv ∈ l ∧ kv.1 ≠ k) ∨ kv = (k, v) := by
  induction l with
  | nil => simp [Store.set] at h; right; exact h
  | cons a rest ih =>
    simp only [List.map_cons, List.nodup_cons] at hn
    by_cases hk : a.1 = k
    · simp only [Store.set, if_pos hk, List.mem_cons] at h
      rcases h with h | h
      · right; exact h
      · left
        refine ⟨List.mem_cons_of_mem a h, ?_⟩
        intro hkv
        exact hn.1 (hk ▸ hkv ▸ List.mem_map_of_mem Prod.fst h)
    · simp only [Store.set, if_neg hk, List.mem_cons] at h
      rcases h with h | h
      · left; exact ⟨h ▸ List.mem_cons_self a rest, h ▸ hk⟩
      · rcases ih hn.2 h with ⟨h2, h3⟩ | h2
        · left; exact ⟨List.mem_cons_of_mem a h2, h3⟩
        · right; exact h2

theorem Store.mem_erase_cases [DecidableEq α] {l : List (α × β)} {k : α}
    {kv : α × β} (hn : (l.map Prod.fst).Nodup) (h : kv ∈ Store.erase l k) :
    kv ∈ l ∧ kv.1 ≠ k := by
  induction l with
  | nil => simp [Store.erase] at h
  | cons a rest ih =>
    simp only [List.map_cons, List.nodup_cons] at hn
    by_cases hk : a.1 = k
    · simp only [Store.erase, if_pos hk] at h
      refine ⟨List.mem_cons_of_mem a h, ?_⟩
      intro hkv
      exact hn.1 (hk ▸ hkv ▸ List.mem_map_of_mem Prod.fst h)
    · simp only [Store.erase, if_neg hk, List.mem_cons] at h
      rcases h with h | h
      · exact ⟨h ▸ List.mem_cons_self a rest, h ▸ hk⟩
      · rcases ih hn.2 h with ⟨h2, h3⟩
        exact ⟨List.mem_cons_of_mem a h2, h3⟩

theorem Store.countQ_set_present [DecidableEq α] (q : β → Bool)
    {l : List (α × β)} {k : α} {w : β} (v : β) (h : Store.get l k = some w) :
    Store.countQ q (Store.set l k v) + (if q w then 1 else 0) =
      Store.countQ q l + (if q v then 1 else 0) := by
  induction l with
  | nil => simp [Store.get] at h
  | cons kv rest ih =>
    by_cases hk : kv.1 = k
    · simp only [Store.get, if_pos hk, Option.some.injEq] at h
      subst h
      simp only [Store.set, if_pos hk, Store.countQ, List.filter_cons]
      by_cases hv : q v <;> by_cases hw : q kv.2 <;>
        simp [hv, hw] <;> omega
    · simp only [Store.get, if_neg hk] at h
      simp only [Store.set, if_neg hk, Store.countQ, List.filter_cons]
      have := ih h
      by_cases hkv : q kv.2 <;> simp only [hkv] <;>
        simp only [Store.countQ] at this <;> simp <;> omega

theorem Store.countQ_append [DecidableEq α] (q : β → Bool)
    (l1 l2 : List (α × β)) :
    Store.countQ q (l1 ++ l2) = Store.countQ q l1 + Store.countQ q l2 := by
  simp [Store.countQ, List.filter_append]

theorem Store.countQ_set_absent [DecidableEq α] (q : β → Bool)
    {l : List (α × β)} {k : α} (v : β) (h : Store.get l k = none) :
    Store.countQ q (Store.set l k v) =
      Store.countQ q l + (if q v then 1 else 0) := by
  rw [Store.set_absent v h, Store.countQ_append]
  simp [Store.countQ, List.filter]
  by_cases hv : q v <;> simp [hv]

theorem Store.countQ_erase [DecidableEq α] (q : β → Bool)
    {l : List (α × β)} {k : α} {w : β} (h : Store.get l k = some w) :
    Store.countQ q (Store.erase l k) + (if q w then 1 else 0) =
      Store.countQ q l := by
  induction l with
  | nil => simp [Store.get] at h
  | cons kv rest ih =>
    by_cases hk : kv.1 = k
    · simp only [Store.get, if_pos hk, Option.some.injEq] at h
      subst h
      simp only [Store.erase, if_pos hk, Store.countQ, List.filter_cons]
      by_cases hw : q kv.2 <;> simp [hw]
    · simp only [Store.get, if_neg hk] at h
      simp only [Store.erase, if_neg hk, Store.countQ, List.filter_cons]
      have := ih h
      by_cases hkv : q kv.2 <;> simp only [hkv] <;>
        simp only [Store.countQ] at this <;> simp <;> omega

theorem Store.countQ_le_length [DecidableEq α] (q : β → Bool)
    (l : List (α × β)) : Store.countQ q l ≤ l.length := by
  simpa [Store.countQ] using List.length_filter_le _ l

theorem Store.length_erase_le [DecidableEq α] (l : List (α × β)) (k : α) :
    (Store.erase l k).length ≤ l.length :=
  (Store.erase_sublist l k).length_le

/- Frame and effect lemmas for the embedded methods. -/

theorem updateBatchWith_workers (s : FleetState) (batchId : String)
    (f : Batch → Batch) : (updateBatchWith s batchId f).workers = s.workers := by
  unfold updateBatchWith
  cases Store.get s.batches batchId <;> rfl

theorem updateBatchWith_config (s : FleetState) (batchId : String)
    (f : Batch → Batch) : (updateBatchWith s batchId f).config = s.config := by
  unfold updateBatchWith
  cases Store.get s.batches batchId <;> rfl

theorem get_updateBatchWith_self {s : FleetState} {batchId : String} {b : Batch}
    (f : Batch → Batch) (h : Store.get s.batches batchId = some b) :
    Store.get (updateBatchWith s batchId f).batches batchId = some (f b) := by
  unfold updateBatchWith
  rw [h]
  exact Store.get_set_self s.batches batchId (f b)

theorem recordTaskResult_workers (s : FleetState) (batchId : String)
    (workerId : Nat) (r : TaskResult) :
    (recordTaskResult s batchId workerId r).workers = s.workers := by
  unfold recordTaskResult
  cases h : Store.get s.batches batchId
  · rfl
  · simp [updateBatchWith_workers]

theorem recordTaskResult_config (s : FleetState) (batchId : String)
    (workerId : Nat) (r : TaskResult) :
    (recordTaskResult s batchId workerId r).config = s.config := by
  unfold recordTaskResult
  cases h : Store.get s.batches batchId
  · rfl
  · simp [updateBatchWith_config]

theorem recordTaskResult_batch {s : FleetState} {batchId : String} {b : Batch}
    (workerId : Nat) (r : TaskResult)
    (h : Store.get s.batches batchId = some b) :
    Store.get (recordTaskResult s batchId workerId r).batches batchId =
      some { b with
        results := b.results ++ [r]
        completedTasks := b.completedTasks + (if r.success then 1 else 0)
        failedTasks := b.failedTasks + (if r.success then 0 else 1)
        workerIds := insertWorkerId b.workerIds workerId } := by
  unfold recordTaskResult
  rw [h]
  simpa using get_updateBatchWith_self _ h

theorem registerWorker_batches (s : FleetState) (workerId : Nat)
    (taskId : String) (status : WorkerStatus) (now : Nat) :
    (registerWorker s workerId taskId status now).batches = s.batches := rfl

theorem registerWorker_config (s : FleetState) (workerId : Nat)
    (taskId : String) (status : WorkerStatus) (now : Nat) :
    (registerWorker s workerId taskId status now).config = s.config := rfl

theorem updateWorkerStatus_batches (s : FleetState) (workerId : Nat)
    (status : WorkerStatus) (completedAt : Option Nat) :
    (updateWorkerStatus s workerId status completedAt).batches = s.batches := by
  unfold updateWorkerStatus
  cases Store.get s.workers workerId <;> rfl

theorem updateWorkerStatus_config (s : FleetState) (workerId : Nat)
    (status : WorkerStatus) (completedAt : Option Nat) :
    (updateWorkerStatus s workerId status completedAt).config = s.config := by
  unfold updateWorkerStatus
  cases Store.get s.workers workerId <;> rfl

theorem admitRetry_workers (s : FleetState) (batchId : String) (t : Task) :
    (admitRetry s batchId t).workers = s.workers := by
  unfold admitRetry
  by_cases h : retryEligible s.config t <;> simp [h, updateBatchWith_workers]

theorem admitRetry_config (s : FleetState) (batchId : String) (t : Task) :
    (admitRetry s batchId t).config = s.config := by
  unfold admitRetry
  by_cases h : retryEligible s.config t <;> simp [h, updateBatchWith_config]

theorem admitRetry_batch {s : FleetState} {batchId : String} {b : Batch}
    (t : Task) (h : Store.get s.batches batchId = some b) :
    Store.get (admitRetry s batchId t).batches batchId =
      some (if retryEligible s.config t then
        { b with tasks := b.tasks ++ [retryTask t]
                 totalTasks := b.totalTasks + 1 }
      else b) := by
  unfold admitRetry
  by_cases he : retryEligible s.config t
  · simp only [he, if_true]
    exact get_updateBatchWith_self _ h
  · simp [he, h]

theorem cancelBatch_workers (s : FleetState) (batchId : String) (now : Nat) :
    (cancelBatch s batchId now).2.workers = s.workers := by
  unfold cancelBatch
  cases h : Store.get s.batches batchId with
  | none => rfl
  | some b =>
    by_cases hs : b.status = BatchStatus.completed ∨ b.status = BatchStatus.failed <;>
      simp [hs, updateBatchWith_workers]

theorem cancelBatch_config (s : FleetState) (batchId : String) (now : Nat) :
    (cancelBatch s batchId now).2.config = s.config := by
  unfold cancelBatch
  cases h : Store.get s.batches batchId with
  | none => rfl
  | some b =>
    by_cases hs : b.status = BatchStatus.completed ∨ b.status = BatchStatus.failed <;>
      simp [hs, updateBatchWith_config]

theorem cancelBatch_batch {s : FleetState} {batchId : String} {b : Batch}
    (now : Nat) (h : Store.get s.batches batchId = some b) :
    Store.get (cancelBatch s batchId now).2.batches batchId =
      some (if b.status = BatchStatus.completed ∨ b.status = BatchStatus.failed
        then b
        else { b with status := .failed, completedAt := some now }) := by
  unfold cancelBatch
  rw [h]
  by_cases hs : b.status = BatchStatus.completed ∨ b.status = BatchStatus.failed
  · simp [hs, h]
  · simp only [hs, if_neg, if_false]
    simpa [hs] using get_updateBatchWith_self _ h

theorem finalizeBatch_workers (s : FleetState) (batchId : String) (now : Nat) :
    (finalizeBatch s batchId now).workers = s.workers := by
  unfold finalizeBatch
  cases h : Store.get s.batches batchId with
  | none => rfl
  | some b =>
    by_cases hs : b.completedTasks + b.failedTasks ≥ b.totalTasks <;>
      simp [hs, updateBatchWith_workers]

theorem finalizeBatch_config (s : FleetState) (batchId : String) (now : Nat) :
    (finalizeBatch s batchId now).config = s.config := by
  unfold finalizeBatch
  cases h : Store.get s.batches batchId with
  | none => rfl
  | some b =>
    by_cases hs : b.completedTasks + b.failedTasks ≥ b.totalTasks <;>
      simp [hs, updateBatchWith_config]

theorem finalizeBatch_batch {s : FleetState} {batchId : String} {b : Batch}
    (now : Nat) (h : Store.get s.batches batchId = some b) :
    Store.get (finalizeBatch s batchId now).batches batchId =
      some (if b.completedTasks + b.failedTasks ≥ b.totalTasks then
        { b with status := finalStatusOf b.completedTasks b.failedTasks
                 completedAt := some now }
      else b) := by
  unfold finalizeBatch
  rw [h]
  by_cases hs : b.completedTasks + b.failedTasks ≥ b.totalTasks
  · simp only [hs, if_true]
    exact get_updateBatchWith_self _ h
  · simp [hs, h]

theorem scaleWorkers_batches {s s2 : FleetState} {n : Nat}
    (h : scaleWorkers s n = some s2) : s2.batches = s.batches := by
  unfold scaleWorkers at h
  by_cases hn : n < 1
  · simp [hn] at h
  · simp only [hn, if_false, Option.some.injEq] at h
    rw [← h]

theorem scaleWorkers_workers {s s2 : FleetState} {n : Nat}
    (h : scaleWorkers s n = some s2) : s2.workers = s.workers := by
  unfold scaleWorkers at h
  by_cases hn : n < 1
  · simp [hn] at h
  · simp only [hn, if_false, Option.some.injEq] at h
    rw [← h]

/-- Number of worker handles currently holding status `active`. -/
def countActiveWorkers (ws : List (Nat × WorkerInfo)) : Nat :=
  Store.countQ (fun w => w.status.isActive) ws

/-- Number of in-flight procs whose handle currently holds status
`active`. -/
def countActiveProcs (ps : List (Nat × Proc)) : Nat :=
  Store.countQ (fun p => p.phase.workerStatus.isActive) ps

/-- Number of in-flight procs that have not yet recorded their result. -/
def countUnrecorded (ps : List (Nat × Proc)) : Nat :=
  Store.countQ (fun p => p.phase.unrecorded) ps

theorem Store.get_mem [DecidableEq α] {l : List (α × β)} {k : α} {v : β}
    (h : Store.get l k = some v) : (k, v) ∈ l := by
  induction l with
  | nil => simp [Store.get] at h
  | cons kv rest ih =>
    by_cases hk : kv.1 = k
    · simp only [Store.get, if_pos hk, Option.some.injEq] at h
      subst h
      subst hk
      exact List.mem_cons_self kv rest
    · simp only [Store.get, if_neg hk] at h
      exact List.mem_cons_of_mem kv (ih h)

theorem Store.length_set_absent [DecidableEq α] {l : List (α × β)} {k : α}
    (v : β) (h : Store.get l k = none) :
    (Store.set l k v).length = l.length + 1 := by
  rw [Store.set_absent v h]
  simp

theorem Store.keys_set_absent [DecidableEq α] {l : List (α × β)} {k : α}
    (v : β) (h : Store.get l k = none) :
    (Store.set l k v).map Prod.fst = l.map Prod.fst ++ [k] := by
  rw [Store.set_absent v h]
  simp

theorem registerWorker_workers (s : FleetState) (workerId : Nat)
    (taskId : String) (status : WorkerStatus) (now : Nat) :
    (registerWorker s workerId taskId status now).workers =
      Store.set s.workers workerId
        { id := workerId, taskId := some taskId, status := status,
          spawnedAt := now } := rfl

theorem updateWorkerStatus_workers_some {s : FleetState} {workerId : Nat}
    {w : WorkerInfo} (status : WorkerStatus) (completedAt : Option Nat)
    (h : Store.get s.workers workerId = some w) :
    (updateWorkerStatus s workerId status completedAt).workers =
      Store.set s.workers workerId
        { w with status := status, completedAt := completedAt } := by
  unfold updateWorkerStatus
  rw [h]

/-- Inductive invariant of the dispatch-loop machine for the batch it is
processing. -/
structure MInv (m : Machine) : Prop where
  batchInv : ∃ b, Store.get m.st.batches m.batchId = some b ∧
    b.completedTasks + b.failedTasks + countUnrecorded m.inFlight +
      m.taskQueue.length = m.snapLen ∧
    m.snapLen ≤ b.totalTasks
  flightBound : m.inFlight.length ≤ m.maxC
  procKeysNodup : (m.inFlight.map Prod.fst).Nodup
  procKeysLt : ∀ kv ∈ m.inFlight, kv.1 < m.nextWorker
  workerKeysLt : ∀ kv ∈ m.st.workers, kv.1 < m.nextWorker
  procWorker : ∀ kv ∈ m.inFlight, ∃ w, Store.get m.st.workers kv.1 = some w ∧
    w.status = kv.2.phase.workerStatus
  activeCount : countActiveWorkers m.st.workers = countActiveProcs m.inFlight

theorem MInv_mkInit (tasks : List Task) (cfg : FleetManagerConfig) :
    MInv (mkInit tasks cfg) := by
  refine ⟨?_, ?_, ?_, ?_, ?_, ?_, ?_⟩ <;>
    simp [mkInit, initState, processStart, submitBatch, updateBatchWith,
      Store.get, Store.set, countUnrecorded, countActiveWorkers,
      countActiveProcs, Store.countQ]

theorem Store.countQ_set_eqq [DecidableEq α] (q : β → Bool)
    {l : List (α × β)} {k : α} {w : β} (v : β) (h : Store.get l k = some w)
    (hqw : q w = q v) :
    Store.countQ q (Store.set l k v) = Store.countQ q l := by
  have hs := Store.countQ_set_present q v h
  rw [hqw] at hs
  omega

theorem Store.countQ_set_up [DecidableEq α] (q : β → Bool)
    {l : List (α × β)} {k : α} {w : β} (v : β) (h : Store.get l k = some w)
    (hqw : q w = false) (hqv : q v = true) :
    Store.countQ q (Store.set l k v) = Store.countQ q l + 1 := by
  have hs := Store.countQ_set_present q v h
  rw [hqw, hqv] at hs
  simp at hs
  omega

theorem Store.countQ_set_down [DecidableEq α] (q : β → Bool)
    {l : List (α × β)} {k : α} {w : β} (v : β) (h : Store.get l k = some w)
    (hqw : q w = true) (hqv : q v = false) :
    Store.countQ q (Store.set l k v) + 1 = Store.countQ q l := by
  have hs := Store.countQ_set_present q v h
  rw [hqw, hqv] at hs
  simp at hs
  omega

theorem Store.countQ_erase_true [DecidableEq α] (q : β → Bool)
    {l : List (α × β)} {k : α} {w : β} (h : Store.get l k = some w)
    (hqw : q w = true) :
    Store.countQ q (Store.erase l k) + 1 = Store.countQ q l := by
  have hs := Store.countQ_erase q h
  rw [hqw] at hs
  simpa using hs

theorem Store.countQ_erase_false [DecidableEq α] (q : β → Bool)
    {l : List (α × β)} {k : α} {w : β} (h : Store.get l k = some w)
    (hqw : q w = false) :
    Store.countQ q (Store.erase l k) = Store.countQ q l := by
  have hs := Store.countQ_erase q h
  rw [hqw] at hs
  simpa using hs

theorem MInv_dispatch {m : Machine} (h : MInv m) :
    MInv (applyAction m .dispatch) := by
  unfold applyAction
  cases hq : m.taskQueue with
  | nil => exact h
  | cons t rest =>
    by_cases hc : m.inFlight.length < m.maxC
    · simp only [if_pos hc]
      have hfreshP : Store.get m.inFlight m.nextWorker = none := by
        apply Store.get_absent
        intro hmem
        obtain ⟨kv, hkv, hfst⟩ := List.mem_map.mp hmem
        have := h.procKeysLt kv hkv
        omega
      have hfreshW : Store.get m.st.workers m.nextWorker = none := by
        apply Store.get_absent
        intro hmem
        obtain ⟨kv, hkv, hfst⟩ := List.mem_map.mp hmem
        have := h.workerKeysLt kv hkv
        omega
      refine ⟨?_, ?_, ?_, ?_, ?_, ?_, ?_⟩
      · obtain ⟨b, hb, heq, hle⟩ := h.batchInv
        dsimp only
        refine ⟨b, hb, ?_, hle⟩
        have hcu : Store.countQ (fun p : Proc => p.phase.unrecorded)
            (Store.set m.inFlight m.nextWorker ⟨t, m.clock, .spawning⟩) =
            Store.countQ (fun p : Proc => p.phase.unrecorded) m.inFlight + 1 := by
          simpa [ProcPhase.unrecorded] using
            Store.countQ_set_absent (fun p : Proc => p.phase.unrecorded)
              (⟨t, m.clock, .spawning⟩ : Proc) hfreshP
        simp only [hq, List.length_cons] at heq
        simp only [countUnrecorded] at heq ⊢
        rw [hcu]
        omega
      · dsimp only
        rw [Store.length_set_absent (⟨t, m.clock, .spawning⟩ : Proc) hfreshP]
        omega
      · dsimp only
        have hnotin : m.nextWorker ∉ m.inFlight.map Prod.fst :=
          (Store.get_eq_none_iff m.inFlight m.nextWorker).mp hfreshP
        rw [Store.keys_set_absent (⟨t, m.clock, .spawning⟩ : Proc) hfreshP]
        refine List.Nodup.append h.procKeysNodup (List.nodup_singleton _) ?_
        intro a ha hb
        simp only [List.mem_singleton] at hb
        exact hnotin (hb ▸ ha)
      · dsimp only
        intro kv hkv
        rcases Store.mem_set_weak hkv with hold | hnew
        · have := h.procKeysLt kv hold
          omega
        · rw [hnew]
          omega
      · dsimp only
        intro kv hkv
        rw [registerWorker_workers] at hkv
        rcases Store.mem_set_weak hkv with hold | hnew
        · have := h.workerKeysLt kv hold
          omega
        · rw [hnew]
          omega
      · dsimp only
        intro kv hkv
        rcases Store.mem_set_weak hkv with hold | hnew
        · obtain ⟨w, hw, hws⟩ := h.procWorker kv hold
          have hne : kv.1 ≠ m.nextWorker := by
            have := h.procKeysLt kv hold
            omega
          refine ⟨w, ?_, hws⟩
          rw [registerWorker_workers, Store.get_set_ne _ _ hne]
          exact hw
        · rw [hnew]
          rw [registerWorker_workers]
          exact ⟨_, Store.get_set_self m.st.workers m.nextWorker _, rfl⟩
      · dsimp only
        have hw : Store.countQ (fun w : WorkerInfo => w.status.isActive)
            (Store.set m.st.workers m.nextWorker
              { id := m.nextWorker, taskId := some t.id, status := .spawning,
                spawnedAt := m.clock }) =
            Store.countQ (fun w : WorkerInfo => w.status.isActive)
              m.st.workers := by
          rw [Store.countQ_set_absent _ _ hfreshW]
          rfl
        have hp : Store.countQ (fun p : Proc => p.phase.workerStatus.isActive)
            (Store.set m.inFlight m.nextWorker ⟨t, m.clock, .spawning⟩) =
            Store.countQ (fun p : Proc => p.phase.workerStatus.isActive)
              m.inFlight := by
          rw [Store.countQ_set_absent _ _ hfreshP]
          rfl
        have hac := h.activeCount
        simp only [countActiveWorkers, countActiveProcs] at hac
        simp only [countActiveWorkers, countActiveProcs, registerWorker_workers]
        rw [hw, hp]
        exact hac
    · simp only [if_neg hc]
      exact h

theorem MInv_markActive {m : Machine} (wid : Nat) (h : MInv m) :
    MInv (applyAction m (.markActive wid)) := by
  unfold applyAction
  dsimp only
  cases hg : Store.get m.inFlight wid with
  | none => exact h
  | some p =>
    dsimp only
    by_cases hph : p.phase = ProcPhase.spawning
    · rw [if_pos hph]
      have hmem := Store.get_mem hg
      have hlt := h.procKeysLt _ hmem
      obtain ⟨w, hwg, hws⟩ := h.procWorker _ hmem
      dsimp only at hlt hwg hws
      have hwupd := updateWorkerStatus_workers_some
        WorkerStatus.active none hwg
      refine ⟨?_, ?_, ?_, ?_, ?_, ?_, ?_⟩
      · obtain ⟨b, hb, heq, hle⟩ := h.batchInv
        dsimp only
        rw [updateWorkerStatus_batches]
        refine ⟨b, hb, ?_, hle⟩
        have hcu : Store.countQ (fun q : Proc => q.phase.unrecorded)
            (Store.set m.inFlight wid { p with phase := .running }) =
            Store.countQ (fun q : Proc => q.phase.unrecorded) m.inFlight := by
          apply Store.countQ_set_eqq _ _ hg
          show p.phase.unrecorded = ProcPhase.running.unrecorded
          rw [hph]
          rfl
        simp only [countUnrecorded] at heq ⊢
        rw [hcu]
        exact heq
      · dsimp only
        rw [Store.length_set_present _ hg]
        exact h.flightBound
      · dsimp only
        rw [Store.keys_set_present _ hg]
        exact h.procKeysNodup
      · dsimp only
        intro kv hkv
        rcases Store.mem_set_weak hkv with hold | hnew
        · exact h.procKeysLt kv hold
        · rw [hnew]
          exact hlt
      · dsimp only
        rw [hwupd]
        intro kv hkv
        rcases Store.mem_set_weak hkv with hold | hnew
        · exact h.workerKeysLt kv hold
        · rw [hnew]
          exact hlt
      · dsimp only
        rw [hwupd]
        intro kv hkv
        rcases Store.mem_set_cases h.procKeysNodup hkv with ⟨hold, hne⟩ | hnew
        · obtain ⟨w2, hw2, hws2⟩ := h.procWorker kv hold
          refine ⟨w2, ?_, hws2⟩
          rw [Store.get_set_ne _ _ hne]
          exact hw2
        · rw [hnew]
          exact ⟨_, Store.get_set_self m.st.workers wid _, rfl⟩
      · dsimp only
        rw [hwupd]
        have hup1 : Store.countQ (fun w2 : WorkerInfo => w2.status.isActive)
            (Store.set m.st.workers wid
              { w with status := .active, completedAt := none }) =
            Store.countQ (fun w2 : WorkerInfo => w2.status.isActive)
              m.st.workers + 1 := by
          apply Store.countQ_set_up _ _ hwg
          · show w.status.isActive = false
            rw [hws, hph]
            rfl
          · rfl
        have hup2 : Store.countQ
            (fun q : Proc => q.phase.workerStatus.isActive)
            (Store.set m.inFlight wid { p with phase := .running }) =
            Store.countQ (fun q : Proc => q.phase.workerStatus.isActive)
              m.inFlight + 1 := by
          apply Store.countQ_set_up _ _ hg
          · show p.phase.workerStatus.isActive = false
            rw [hph]
            rfl
          · rfl
        have hac := h.activeCount
        simp only [countActiveWorkers, countActiveProcs] at hac ⊢
        rw [hup1, hup2, hac]
    · rw [if_neg hph]
      exact h

theorem MInv_resolveOk {m : Machine} (wid : Nat) (r : TaskResult)
    (h : MInv m) : MInv (applyAction m (.resolveOk wid r)) := by
  unfold applyAction
  dsimp only
  cases hg : Store.get m.inFlight wid with
  | none => exact h
  | some p =>
    dsimp only
    by_cases hph : p.phase = ProcPhase.running
    · rw [if_pos hph]
      have hmem := Store.get_mem hg
      have hlt := h.procKeysLt _ hmem
      dsimp only at hlt
      refine ⟨?_, ?_, ?_, ?_, ?_, ?_, ?_⟩
      · obtain ⟨b, hb, heq, hle⟩ := h.batchInv
        dsimp only
        refine ⟨b, hb, ?_, hle⟩
        have hcu : Store.countQ (fun q : Proc => q.phase.unrecorded)
            (Store.set m.inFlight wid { p with phase := .okRecord r }) =
            Store.countQ (fun q : Proc => q.phase.unrecorded) m.inFlight := by
          apply Store.countQ_set_eqq _ _ hg
          show p.phase.unrecorded = (ProcPhase.okRecord r).unrecorded
          rw [hph]
          rfl
        simp only [countUnrecorded] at heq ⊢
        rw [hcu]
        exact heq
      · dsimp only
        rw [Store.length_set_present _ hg]
        exact h.flightBound
      · dsimp only
        rw [Store.keys_set_present _ hg]
        exact h.procKeysNodup
      · dsimp only
        intro kv hkv
        rcases Store.mem_set_weak hkv with hold | hnew
        · exact h.procKeysLt kv hold
        · rw [hnew]
          exact hlt
      · exact h.workerKeysLt
      · dsimp only
        intro kv hkv
        rcases Store.mem_set_cases h.procKeysNodup hkv with ⟨hold, hne⟩ | hnew
        · exact h.procWorker kv hold
        · rw [hnew]
          obtain ⟨w, hwg, hws⟩ := h.procWorker _ hmem
          dsimp only at hwg hws
          refine ⟨w, hwg, ?_⟩
          rw [hws, hph]
          rfl
      · dsimp only
        have hcp : Store.countQ (fun q : Proc => q.phase.workerStatus.isActive)
            (Store.set m.inFlight wid { p with phase := .okRecord r }) =
            Store.countQ (fun q : Proc => q.phase.workerStatus.isActive)
              m.inFlight := by
          apply Store.countQ_set_eqq _ _ hg
          show p.phase.workerStatus.isActive =
            (ProcPhase.okRecord r).workerStatus.isActive
          rw [hph]
          rfl
        simp only [countActiveWorkers, countActiveProcs] at hcp ⊢
        rw [hcp]
        exact h.activeCount
    · rw [if_neg hph]
      exact h

theorem MInv_resolveErr {m : Machine} (wid : Nat) (msg : String)
    (h : MInv m) : MInv (applyAction m (.resolveErr wid msg)) := by
  unfold applyAction
  dsimp only
  cases hg : Store.get m.inFlight wid with
  | none => exact h
  | some p =>
    dsimp only
    by_cases hph : p.phase = ProcPhase.running
    · rw [if_pos hph]
      have hmem := Store.get_mem hg
      have hlt := h.procKeysLt _ hmem
      dsimp only at hlt
      refine ⟨?_, ?_, ?_, ?_, ?_, ?_, ?_⟩
      · obtain ⟨b, hb, heq, hle⟩ := h.batchInv
        dsimp only
        refine ⟨b, hb, ?_, hle⟩
        have hcu : Store.countQ (fun q : Proc => q.phase.unrecorded)
            (Store.set m.inFlight wid { p with phase := .errRecord msg }) =
            Store.countQ (fun q : Proc => q.phase.unrecorded) m.inFlight := by
          apply Store.countQ_set_eqq _ _ hg
          show p.phase.unrecorded = (ProcPhase.errRecord msg).unrecorded
          rw [hph]
          rfl
        simp only [countUnrecorded] at heq ⊢
        rw [hcu]
        exact heq
      · dsimp only
        rw [Store.length_set_present _ hg]
        exact h.flightBound
      · dsimp only
        rw [Store.keys_set_present _ hg]
        exact h.procKeysNodup
      · dsimp only
        intro kv hkv
        rcases Store.mem_set_weak hkv with hold | hnew
        · exact h.procKeysLt kv hold
        · rw [hnew]
          exact hlt
      · exact h.workerKeysLt
      · dsimp only
        intro kv hkv
        rcases Store.mem_set_cases h.procKeysNodup hkv with ⟨hold, hne⟩ | hnew
        · exact h.procWorker kv hold
        · rw [hnew]
          obtain ⟨w, hwg, hws⟩ := h.procWorker _ hmem
          dsimp only at hwg hws
          refine ⟨w, hwg, ?_⟩
          rw [hws, hph]
          rfl
      · dsimp only
        have hcp : Store.countQ (fun q : Proc => q.phase.workerStatus.isActive)
            (Store.set m.inFlight wid { p with phase := .errRecord msg }) =
            Store.countQ (fun q : Proc => q.phase.workerStatus.isActive)
              m.inFlight := by
          apply Store.countQ_set_eqq _ _ hg
          show p.phase.workerStatus.isActive =
            (ProcPhase.errRecord msg).workerStatus.isActive
          rw [hph]
          rfl
        simp only [countActiveWorkers, countActiveProcs] at hcp ⊢
        rw [hcp]
        exact h.activeCount
    · rw [if_neg hph]
      exact h

theorem MInv_micro {m : Machine} (wid : Nat) (h : MInv m) :
    MInv (applyAction m (.micro wid)) := by
  unfold applyAction
  dsimp only
  cases hg : Store.get m.inFlight wid with
  | none => exact h
  | some p =>
    dsimp only
    have hmem := Store.get_mem hg
    have hlt := h.procKeysLt _ hmem
    obtain ⟨w, hwg, hws⟩ := h.procWorker _ hmem
    dsimp only at hlt hwg hws
    cases hph : p.phase with
    | spawning => exact h
    | running => exact h
    | okRecord r =>
      rw [hph] at hws
      refine ⟨?_, ?_, ?_, ?_, ?_, ?_, ?_⟩
      · obtain ⟨b, hb, heq, hle⟩ := h.batchInv
        dsimp only
        refine ⟨_, recordTaskResult_batch wid r hb, ?_, ?_⟩
        · have hcu : Store.countQ (fun q : Proc => q.phase.unrecorded)
              (Store.set m.inFlight wid { p with phase := .okFinish }) + 1 =
              Store.countQ (fun q : Proc => q.phase.unrecorded) m.inFlight := by
            apply Store.countQ_set_down _ _ hg
            · show p.phase.unrecorded = true
              rw [hph]
              rfl
            · rfl
          simp only [countUnrecorded] at heq ⊢
          cases hr : r.success <;> (try simp) <;> omega
        · dsimp only
          exact hle
      · dsimp only
        rw [Store.length_set_present _ hg]
        exact h.flightBound
      · dsimp only
        rw [Store.keys_set_present _ hg]
        exact h.procKeysNodup
      · dsimp only
        intro kv hkv
        rcases Store.mem_set_weak hkv with hold | hnew
        · exact h.procKeysLt kv hold
        · rw [hnew]
          exact hlt
      · dsimp only
        rw [recordTaskResult_workers]
        exact h.workerKeysLt
      · dsimp only
        rw [recordTaskResult_workers]
        intro kv hkv
        rcases Store.mem_set_cases h.procKeysNodup hkv with ⟨hold, hne⟩ | hnew
        · exact h.procWorker kv hold
        · rw [hnew]
          refine ⟨w, hwg, ?_⟩
          rw [hws]
          rfl
      · dsimp only
        rw [recordTaskResult_workers]
        have hcp : Store.countQ (fun q : Proc => q.phase.workerStatus.isActive)
            (Store.set m.inFlight wid { p with phase := .okFinish }) =
            Store.countQ (fun q : Proc => q.phase.workerStatus.isActive)
              m.inFlight := by
          apply Store.countQ_set_eqq _ _ hg
          show p.phase.workerStatus.isActive =
            ProcPhase.okFinish.workerStatus.isActive
          rw [hph]
          rfl
        simp only [countActiveWorkers, countActiveProcs] at hcp ⊢
        rw [hcp]
        exact h.activeCount
    | okFinish =>
      rw [hph] at hws
      have hwupd := updateWorkerStatus_workers_some
        WorkerStatus.completed (some p.spawnedAt) hwg
      refine ⟨?_, ?_, ?_, ?_, ?_, ?_, ?_⟩
      · obtain ⟨b, hb, heq, hle⟩ := h.batchInv
        dsimp only
        rw [updateWorkerStatus_batches]
        refine ⟨b, hb, ?_, hle⟩
        have hcu : Store.countQ (fun q : Proc => q.phase.unrecorded)
            (Store.erase m.inFlight wid) =
            Store.countQ (fun q : Proc => q.phase.unrecorded) m.inFlight := by
          apply Store.countQ_erase_false _ hg
          show p.phase.unrecorded = false
          rw [hph]
          rfl
        simp only [countUnrecorded] at heq ⊢
        rw [hcu]
        exact heq
      · dsimp only
        exact le_trans (Store.length_erase_le _ _) h.flightBound
      · dsimp only
        exact List.Nodup.sublist
          (List.Sublist.map _ (Store.erase_sublist m.inFlight wid))
          h.procKeysNodup
      · dsimp only
        intro kv hkv
        exact h.procKeysLt kv ((Store.erase_sublist _ _).subset hkv)
      · dsimp only
        rw [hwupd]
        intro kv hkv
        rcases Store.mem_set_weak hkv with hold | hnew
        · exact h.workerKeysLt kv hold
        · rw [hnew]
          exact hlt
      · dsimp only
        rw [hwupd]
        intro kv hkv
        obtain ⟨hold, hne⟩ := Store.mem_erase_cases h.procKeysNodup hkv
        obtain ⟨w2, hw2, hws2⟩ := h.procWorker kv hold
        refine ⟨w2, ?_, hws2⟩
        rw [Store.get_set_ne _ _ hne]
        exact hw2
      · dsimp only
        rw [hwupd]
        have hdw : Store.countQ (fun w2 : WorkerInfo => w2.status.isActive)
            (Store.set m.st.workers wid
              { w with status := .completed, completedAt := some p.spawnedAt })
              + 1 =
            Store.countQ (fun w2 : WorkerInfo => w2.status.isActive)
              m.st.workers := by
          apply Store.countQ_set_down _ _ hwg
          · show w.status.isActive = true
            rw [hws]
            rfl
          · rfl
        have hdp : Store.countQ (fun q : Proc => q.phase.workerStatus.isActive)
            (Store.erase m.inFlight wid) + 1 =
            Store.countQ (fun q : Proc => q.phase.workerStatus.isActive)
              m.inFlight := by
          apply Store.countQ_erase_true _ hg
          show p.phase.workerStatus.isActive = true
          rw [hph]
          rfl
        have hac := h.activeCount
        simp only [countActiveWorkers, countActiveProcs] at hac ⊢
        omega
    | errRecord msg =>
      rw [hph] at hws
      refine ⟨?_, ?_, ?_, ?_, ?_, ?_, ?_⟩
      · obtain ⟨b, hb, heq, hle⟩ := h.batchInv
        dsimp only
        refine ⟨_, recordTaskResult_batch wid _ hb, ?_, ?_⟩
        · have hcu : Store.countQ (fun q : Proc => q.phase.unrecorded)
              (Store.set m.inFlight wid { p with phase := .errMark }) + 1 =
              Store.countQ (fun q : Proc => q.phase.unrecorded) m.inFlight := by
            apply Store.countQ_set_down _ _ hg
            · show p.phase.unrecorded = true
              rw [hph]
              rfl
            · rfl
          simp only [countUnrecorded] at heq ⊢
          cases hr : (failureResult p.task msg p.spawnedAt m.clock).success <;>
            (try simp) <;> omega
        · dsimp only
          exact hle
      · dsimp only
        rw [Store.length_set_present _ hg]
        exact h.flightBound
      · dsimp only
        rw [Store.keys_set_present _ hg]
        exact h.procKeysNodup
      · dsimp only
        intro kv hkv
        rcases Store.mem_set_weak hkv with hold | hnew
        · exact h.procKeysLt kv hold
        · rw [hnew]
          exact hlt
      · dsimp only
        rw [recordTaskResult_workers]
        exact h.workerKeysLt
      · dsimp only
        rw [recordTaskResult_workers]
        intro kv hkv
        rcases Store.mem_set_cases h.procKeysNodup hkv with ⟨hold, hne⟩ | hnew
        · exact h.procWorker kv hold
        · rw [hnew]
          refine ⟨w, hwg, ?_⟩
          rw [hws]
          rfl
      · dsimp only
        rw [recordTaskResult_workers]
        have hcp : Store.countQ (fun q : Proc => q.phase.workerStatus.isActive)
            (Store.set m.inFlight wid { p with phase := .errMark }) =
            Store.countQ (fun q : Proc => q.phase.workerStatus.isActive)
              m.inFlight := by
          apply Store.countQ_set_eqq _ _ hg
          show p.phase.workerStatus.isActive =
            ProcPhase.errMark.workerStatus.isActive
          rw [hph]
          rfl
        simp only [countActiveWorkers, countActiveProcs] at hcp ⊢
        rw [hcp]
        exact h.activeCount
    | errMark =>
      rw [hph] at hws
      have hwupd := updateWorkerStatus_workers_some
        WorkerStatus.failed (some p.spawnedAt) hwg
      refine ⟨?_, ?_, ?_, ?_, ?_, ?_, ?_⟩
      · obtain ⟨b, hb, heq, hle⟩ := h.batchInv
        dsimp only
        rw [updateWorkerStatus_batches]
        refine ⟨b, hb, ?_, hle⟩
        have hcu : Store.countQ (fun q : Proc => q.phase.unrecorded)
            (Store.set m.inFlight wid { p with phase := .errRetry }) =
            Store.countQ (fun q : Proc => q.phase.unrecorded) m.inFlight := by
          apply Store.countQ_set_eqq _ _ hg
          show p.phase.unrecorded = ProcPhase.errRetry.unrecorded
          rw [hph]
          rfl
        simp only [countUnrecorded] at heq ⊢
        rw [hcu]
        exact heq
      · dsimp only
        rw [Store.length_set_present _ hg]
        exact h.flightBound
      · dsimp only
        rw [Store.keys_set_present _ hg]
        exact h.procKeysNodup
      · dsimp only
        intro kv hkv
        rcases Store.mem_set_weak hkv with hold | hnew
        · exact h.procKeysLt kv hold
        · rw [hnew]
          exact hlt
      · dsimp only
        rw [hwupd]
        intro kv hkv
        rcases Store.mem_set_weak hkv with hold | hnew
        · exact h.workerKeysLt kv hold
        · rw [hnew]
          exact hlt
      · dsimp only
        rw [hwupd]
        intro kv hkv
        rcases Store.mem_set_cases h.procKeysNodup hkv with ⟨hold, hne⟩ | hnew
        · obtain ⟨w2, hw2, hws2⟩ := h.procWorker kv hold
          refine ⟨w2, ?_, hws2⟩
          rw [Store.get_set_ne _ _ hne]
          exact hw2
        · rw [hnew]
          exact ⟨_, Store.get_set_self m.st.workers wid _, rfl⟩
      · dsimp only
        rw [hwupd]
        have hdw : Store.countQ (fun w2 : WorkerInfo => w2.status.isActive)
            (Store.set m.st.workers wid
              { w with status := .failed, completedAt := some p.spawnedAt })
              + 1 =
            Store.countQ (fun w2 : WorkerInfo => w2.status.isActive)
              m.st.workers := by
          apply Store.countQ_set_down _ _ hwg
          · show w.status.isActive = true
            rw [hws]
            rfl
          · rfl
        have hdp : Store.countQ (fun q : Proc => q.phase.workerStatus.isActive)
            (Store.set m.inFlight wid { p with phase := .errRetry }) + 1 =
            Store.countQ (fun q : Proc => q.phase.workerStatus.isActive)
              m.inFlight := by
          apply Store.countQ_set_down _ _ hg
          · show p.phase.workerStatus.isActive = true
            rw [hph]
            rfl
          · rfl
        have hac := h.activeCount
        simp only [countActiveWorkers, countActiveProcs] at hac ⊢
        omega
    | errRetry =>
      rw [hph] at hws
      refine ⟨?_, ?_, ?_, ?_, ?_, ?_, ?_⟩
      · obtain ⟨b, hb, heq, hle⟩ := h.batchInv
        dsimp only
        refine ⟨_, admitRetry_batch p.task hb, ?_, ?_⟩
        · have hcu : Store.countQ (fun q : Proc => q.phase.unrecorded)
              (Store.erase m.inFlight wid) =
              Store.countQ (fun q : Proc => q.phase.unrecorded) m.inFlight := by
            apply Store.countQ_erase_false _ hg
            show p.phase.unrecorded = false
            rw [hph]
            rfl
          simp only [countUnrecorded] at heq ⊢
          rw [hcu]
          cases he : retryEligible m.st.config p.task <;> (try simp) <;> omega
        · cases he : retryEligible m.st.config p.task <;> (try simp) <;> omega
      · dsimp only
        exact le_trans (Store.length_erase_le _ _) h.flightBound
      · dsimp only
        exact List.Nodup.sublist
          (List.Sublist.map _ (Store.erase_sublist m.inFlight wid))
          h.procKeysNodup
      · dsimp only
        intro kv hkv
        exact h.procKeysLt kv ((Store.erase_sublist _ _).subset hkv)
      · dsimp only
        rw [admitRetry_workers]
        exact h.workerKeysLt
      · dsimp only
        rw [admitRetry_workers]
        intro kv hkv
        obtain ⟨hold, hne⟩ := Store.mem_erase_cases h.procKeysNodup hkv
        exact h.procWorker kv hold
      · dsimp only
        rw [admitRetry_workers]
        have hdp : Store.countQ (fun q : Proc => q.phase.workerStatus.isActive)
            (Store.erase m.inFlight wid) =
            Store.countQ (fun q : Proc => q.phase.workerStatus.isActive)
              m.inFlight := by
          apply Store.countQ_erase_false _ hg
          show p.phase.workerStatus.isActive = false
          rw [hph]
          rfl
        simp only [countActiveWorkers, countActiveProcs] at hdp ⊢
        rw [hdp]
        exact h.activeCount

theorem MInv_cancelCall {m : Machine} (h : MInv m) :
    MInv (applyAction m .cancelCall) := by
  unfold applyAction
  dsimp only
  obtain ⟨b, hb, heq, hle⟩ := h.batchInv
  refine ⟨?_, h.flightBound, h.procKeysNodup, h.procKeysLt, ?_, ?_, ?_⟩
  · dsimp only
    refine ⟨_, cancelBatch_batch m.clock hb, ?_, ?_⟩
    · by_cases hs : b.status = BatchStatus.completed ∨
          b.status = BatchStatus.failed
      · rw [if_pos hs]
        exact heq
      · rw [if_neg hs]
        exact heq
    · by_cases hs : b.status = BatchStatus.completed ∨
          b.status = BatchStatus.failed
      · rw [if_pos hs]
        exact hle
      · rw [if_neg hs]
        exact hle
  · dsimp only
    rw [cancelBatch_workers]
    exact h.workerKeysLt
  · dsimp only
    intro kv hkv
    rw [cancelBatch_workers]
    exact h.procWorker kv hkv
  · dsimp only
    rw [cancelBatch_workers]
    exact h.activeCount

theorem MInv_scaleCall {m : Machine} (n : Nat) (h : MInv m) :
    MInv (applyAction m (.scaleCall n)) := by
  unfold applyAction
  dsimp only
  cases hs : scaleWorkers m.st n with
  | none => exact h
  | some s2 =>
    have hbs := scaleWorkers_batches hs
    have hws := scaleWorkers_workers hs
    refine ⟨?_, h.flightBound, h.procKeysNodup, h.procKeysLt, ?_, ?_, ?_⟩
    · dsimp only
      rw [hbs]
      exact h.batchInv
    · dsimp only
      rw [hws]
      exact h.workerKeysLt
    · dsimp only
      intro kv hkv
      rw [hws]
      exact h.procWorker kv hkv
    · dsimp only
      rw [hws]
      exact h.activeCount

theorem MInv_finalizeCall {m : Machine} (h : MInv m) :
    MInv (applyAction m .finalizeCall) := by
  unfold applyAction
  dsimp only
  cases hfin : (m.taskQueue.isEmpty && m.inFlight.isEmpty) with
  | false => exact h
  | true =>
    rw [if_pos rfl]
    obtain ⟨b, hb, heq, hle⟩ := h.batchInv
    refine ⟨?_, h.flightBound, h.procKeysNodup, h.procKeysLt, ?_, ?_, ?_⟩
    · dsimp only
      refine ⟨_, finalizeBatch_batch m.clock hb, ?_, ?_⟩
      · by_cases hs : b.completedTasks + b.failedTasks ≥ b.totalTasks
        · rw [if_pos hs]
          exact heq
        · rw [if_neg hs]
          exact heq
      · by_cases hs : b.completedTasks + b.failedTasks ≥ b.totalTasks
        · rw [if_pos hs]
          exact hle
        · rw [if_neg hs]
          exact hle
    · dsimp only
      rw [finalizeBatch_workers]
      exact h.workerKeysLt
    · dsimp only
      intro kv hkv
      rw [finalizeBatch_workers]
      exact h.procWorker kv hkv
    · dsimp only
      rw [finalizeBatch_workers]
      exact h.activeCount

theorem MInv_applyAction {m : Machine} (h : MInv m) (a : MAction) :
    MInv (applyAction m a) := by
  cases a with
  | dispatch => exact MInv_dispatch h
  | markActive wid => exact MInv_markActive wid h
  | resolveOk wid r => exact MInv_resolveOk wid r h
  | resolveErr wid msg => exact MInv_resolveErr wid msg h
  | micro wid => exact MInv_micro wid h
  | cancelCall => exact MInv_cancelCall h
  | scaleCall n => exact MInv_scaleCall n h
  | finalizeCall => exact MInv_finalizeCall h

theorem MInv_runMachine {m : Machine} (h : MInv m) (acts : List MAction) :
    MInv (runMachine m acts) := by
  induction acts generalizing m with
  | nil => exact h
  | cons a rest ih => exact ih (MInv_applyAction h a)

theorem MInv_run_mkInit (tasks : List Task) (cfg : FleetManagerConfig)
    (acts : List MAction) : MInv (runMachine (mkInit tasks cfg) acts) :=
  MInv_runMachine (MInv_mkInit tasks cfg) acts

/-- No action ever changes the captured concurrency bound of a running
`processBatch` invocation: it was destructured from the config once at
line 197. -/
theorem applyAction_maxC (m : Machine) (a : MAction) :
    (applyAction m a).maxC = m.maxC := by
  cases a <;> unfold applyAction <;> dsimp only <;> (repeat' split) <;> rfl

theorem runMachine_maxC (m : Machine) (acts : List MAction) :
    (runMachine m acts).maxC = m.maxC := by
  induction acts generalizing m with
  | nil => rfl
  | cons a rest ih =>
    show (runMachine (applyAction m a) rest).maxC = m.maxC
    rw [ih, applyAction_maxC]

theorem applyAction_batchId (m : Machine) (a : MAction) :
    (applyAction m a).batchId = m.batchId := by
  cases a <;> unfold applyAction <;> dsimp only <;> (repeat' split) <;> rfl

theorem runMachine_batchId (m : Machine) (acts : List MAction) :
    (runMachine m acts).batchId = m.batchId := by
  induction acts generalizing m with
  | nil => rfl
  | cons a rest ih =>
    show (runMachine (applyAction m a) rest).batchId = m.batchId
    rw [ih, applyAction_batchId]

theorem finalStatusOf_eq_spec (completedTasks failedTasks : Nat) :
    finalStatusOf completedTasks failedTasks =
      specTerminalStatus completedTasks failedTasks := rfl

/- Concrete fixtures used by the per-claim scenario theorems. -/

def taskA : Task := { id := "t0", type := "work" }

def taskB : Task := { id := "t1", type := "work" }

def cfgRetry : FleetManagerConfig :=
  { maxConcurrentWorkers := 10, workerTimeout := 300000,
    retryFailedTasks := true, maxRetries := 3 }

def cfgOne : FleetManagerConfig :=
  { maxConcurrentWorkers := 1, workerTimeout := 300000,
    retryFailedTasks := false, maxRetries := 3 }

def okResult : TaskResult := { taskId := "t0", success := true }

/-- The complete processing run of a batch of one task whose execution
throws, with retries enabled: dispatch the task, mark it active, let it
fail, run the three synchronous failure mutations, then reach the
`finalizeBatch` call at the end of the loop. -/
def c1Run : Machine :=
  runMachine (mkInit [taskA] cfgRetry)
    [.dispatch, .markActive 0, .resolveErr 0 "boom", .micro 0, .micro 0,
     .micro 0, .finalizeCall]

/-- C1: the claim says a retried task re-enters the backlog the dispatch
loop is draining and is re-dispatched within the same processing run.  The
code violates this: the loop drains the snapshot `[...batch.tasks]` taken at
line 198 while the retry is appended only to the persisted `batch.tasks`, so
after the complete run the retry was never dispatched (exactly one worker
was ever registered), the batch holds totalTasks = 2 with only one recorded
outcome, and it is stuck in `processing` because `finalizeBatch`'s guard
`1 >= 2` fails. -/
theorem c1_retry_never_redispatched :
    c1Run.taskQueue = [] ∧ c1Run.inFlight = [] ∧
    c1Run.st.workers.length = 1 ∧
    (Store.get c1Run.st.batches "b0").map
      (fun b => (b.status, b.totalTasks, b.completedTasks, b.failedTasks,
        b.tasks.length)) =
      some (BatchStatus.processing, 2, 0, 1, 2) := by decide

def c5Run : Machine :=
  runMachine (mkInit [taskA, taskB] cfgOne) [.dispatch, .scaleCall 5, .dispatch]

/-- C5 counterexample: with `maxConcurrentWorkers = 1` captured at the start
of `processBatch`, a `scaleWorkers 5` call between dispatch decisions does
update the shared config, yet the very next dispatch decision still refuses
to fill a second slot: the bound was snapshotted at line 197, not re-read. -/
theorem c5_counterexample :
    c5Run.st.config.maxConcurrentWorkers = 5 ∧
    c5Run.taskQueue.length = 1 ∧
    c5Run.inFlight.length = 1 := by decide

/-- C5 amended: the concurrency bound used by every dispatch decision of a
batch is the value of `maxConcurrentWorkers` destructured once when
`processBatch` starts; no interleaved action (including `scaleWorkers`)
changes it for the running batch, while a successful `scaleWorkers` call
stores the new value in the shared config, which only a subsequently started
batch picks up. -/
theorem c5_bound_captured_once (tasks : List Task) (cfg : FleetManagerConfig)
    (acts : List MAction) :
    (runMachine (mkInit tasks cfg) acts).maxC = cfg.maxConcurrentWorkers ∧
    (∀ (s : FleetState) (n : Nat),
      (scaleWorkers s (n + 1)).map
        (fun s2 => s2.config.maxConcurrentWorkers) = some (n + 1)) := by
  constructor
  · rw [runMachine_maxC]
    rfl
  · intro s n
    unfold scaleWorkers
    simp

/-- C10: submitting an empty batch finalizes it immediately as `completed`
with `completedAt` set, and `getBatchStatus` reports progress 0 through the
`totalTasks > 0` guard rather than dividing by zero. -/
theorem c10_empty_batch (cfg : FleetManagerConfig) :
    (Store.get (runMachine (mkInit [] cfg) [.finalizeCall]).st.batches
        "b0").map
      (fun b => (b.status, b.completedAt.isSome, b.totalTasks,
        b.completedTasks, b.failedTasks)) =
      some (BatchStatus.completed, true, 0, 0, 0) ∧
    (getBatchStatus (runMachine (mkInit [] cfg) [.finalizeCall]).st "b0").map
      (fun v => (v.progress, v.status, v.totalTasks)) =
      some ((0 : ℚ), BatchStatus.completed, 0) := by
  constructor <;> rfl

/- C2 fixtures: a cancelled batch whose one in-flight execution later
resolves successfully, and a batch already in the terminal status
"partial". -/

def c2Pre : Machine :=
  runMachine (mkInit [taskA] cfgRetry) [.dispatch, .markActive 0, .cancelCall]

def c2Full : Machine :=
  runMachine c2Pre [.resolveOk 0 okResult, .micro 0, .micro 0, .finalizeCall]

def mixedBatch : Batch :=
  { id := "bp", tasks := [], status := .mixed, createdAt := 0, results := [],
    totalTasks := 2, completedTasks := 1, failedTasks := 1, workerIds := [] }

def mixedState : FleetState :=
  { batches := [("bp", mixedBatch)], workers := [], config := cfgRetry,
    stats := { totalBatches := 1, totalTasks := 2, completedTasks := 1,
               failedTasks := 1, activeWorkers := 0 } }

/-- C2 counterexample: terminal status is not immutable.  `cancelBatch`
makes the batch terminal (`failed`), yet after the in-flight execution
resolves and `finalizeBatch` re-runs (it has no already-terminal guard) the
status has been overwritten to `completed`; and `cancelBatch` on a batch in
terminal status `mixed` ("partial") returns true and overwrites the status
with `failed`, because line 524 only checks `completed`/`failed`. -/
theorem c2_counterexample :
    (Store.get c2Pre.st.batches "b0").map Batch.status =
      some BatchStatus.failed ∧
    (Store.get c2Full.st.batches "b0").map Batch.status =
      some BatchStatus.completed ∧
    (cancelBatch mixedState "bp" 9).1 = true ∧
    (Store.get (cancelBatch mixedState "bp" 9).2.batches "bp").map
      Batch.status = some BatchStatus.failed := by decide

/-- C2 amended: `cancelBatch` does refuse and leave the state unchanged when
the status is `completed` or `failed`. -/
theorem c2_cancel_refused_when_done (s : FleetState) (batchId : String)
    (now : Nat) (b : Batch) (hb : Store.get s.batches batchId = some b)
    (hterm : b.status = BatchStatus.completed ∨
      b.status = BatchStatus.failed) :
    cancelBatch s batchId now = (false, s) := by
  unfold cancelBatch
  rw [hb]
  dsimp only
  rw [if_pos hterm]

def doneBatch : Batch :=
  { id := "bd", tasks := [], status := .completed, createdAt := 0,
    results := [], totalTasks := 1, completedTasks := 1, failedTasks := 0,
    workerIds := [] }

def doneState : FleetState :=
  { batches := [("bd", doneBatch)], workers := [], config := cfgRetry,
    stats := { totalBatches := 1, totalTasks := 1, completedTasks := 1,
               failedTasks := 0, activeWorkers := 0 } }

theorem c2_witness :
    Store.get doneState.batches "bd" = some doneBatch ∧
    (doneBatch.status = BatchStatus.completed ∨
      doneBatch.status = BatchStatus.failed) ∧
    cancelBatch doneState "bd" 5 = (false, doneState) :=
  ⟨by decide, by decide,
    c2_cancel_refused_when_done doneState "bd" 5 doneBatch (by decide)
      (by decide)⟩

/- C3 fixtures: a processing batch with one task whose worker is active. -/

def oneBatch : Batch :=
  { id := "b0", tasks := [taskA], status := .processing, createdAt := 0,
    results := [], totalTasks := 1, completedTasks := 0, failedTasks := 0,
    workerIds := [] }

def activeWorker0 : WorkerInfo :=
  { id := 0, taskId := some "t0", status := .active, spawnedAt := 0 }

def oneState : FleetState :=
  { batches := [("b0", oneBatch)], workers := [(0, activeWorker0)],
    config := cfgRetry,
    stats := { totalBatches := 1, totalTasks := 1, completedTasks := 0,
               failedTasks := 0, activeWorkers := 1 } }

/-- C3 counterexample: a failing attempt that is still retry-eligible
(retries = 0 < maxRetries = 3, retryFailedTasks = true) nevertheless records
a TaskResult and increments `failedTasks`: the catch block of `spawnWorker`
records the failure before it checks the retry policy. -/
theorem c3_counterexample :
    retryEligible oneState.config taskA = true ∧
    (Store.get (spawnWorkerFailurePath oneState "b0" 0 taskA "boom" 0 4).batches
        "b0").map (fun b => (b.failedTasks, b.results.length)) =
      some (1, 1) := by decide

/-- C3 amended: every failed attempt — retry-eligible or not — immediately
records a `success=false` TaskResult and increments `failedTasks`; only when
the task is retry-eligible is the retried task additionally appended and
`totalTasks` incremented, so each attempt (not each logical task) yields
exactly one TaskResult. -/
theorem c3_every_failed_attempt_recorded (s : FleetState) (batchId : String)
    (workerId : Nat) (t : Task) (msg : String) (spawnedAt now : Nat)
    (b : Batch) (hb : Store.get s.batches batchId = some b) :
    Store.get (spawnWorkerFailurePath s batchId workerId t msg spawnedAt
        now).batches batchId =
      some (if retryEligible s.config t then
        { b with
          tasks := b.tasks ++ [retryTask t]
          results := b.results ++ [failureResult t msg spawnedAt now]
          totalTasks := b.totalTasks + 1
          failedTasks := b.failedTasks + 1
          workerIds := insertWorkerId b.workerIds workerId }
      else
        { b with
          results := b.results ++ [failureResult t msg spawnedAt now]
          failedTasks := b.failedTasks + 1
          workerIds := insertWorkerId b.workerIds workerId }) := by
  unfold spawnWorkerFailurePath
  have h2 : Store.get (updateWorkerStatus
      (recordTaskResult s batchId workerId
        (failureResult t msg spawnedAt now))
      workerId WorkerStatus.failed (some spawnedAt)).batches batchId =
      some { b with
        results := b.results ++ [failureResult t msg spawnedAt now]
        completedTasks := b.completedTasks +
          (if (failureResult t msg spawnedAt now).success then 1 else 0)
        failedTasks := b.failedTasks +
          (if (failureResult t msg spawnedAt now).success then 0 else 1)
        workerIds := insertWorkerId b.workerIds workerId } := by
    rw [updateWorkerStatus_batches]
    exact recordTaskResult_batch workerId _ hb
  have hcfg : (updateWorkerStatus
      (recordTaskResult s batchId workerId
        (failureResult t msg spawnedAt now))
      workerId WorkerStatus.failed (some spawnedAt)).config = s.config := by
    rw [updateWorkerStatus_config, recordTaskResult_config]
  have h3 := admitRetry_batch t h2
  rw [hcfg] at h3
  cases he : retryEligible s.config t <;> rw [he] at h3 <;> exact h3

/-- The same processing batch owned by a dispatcher configured with
`retryFailedTasks = false`, so a failure of `taskA` is final. -/
def oneStateNoRetry : FleetState :=
  { batches := [("b0", oneBatch)], workers := [(0, activeWorker0)],
    config := cfgOne,
    stats := { totalBatches := 1, totalTasks := 1, completedTasks := 0,
               failedTasks := 0, activeWorkers := 1 } }

theorem c3_witness :
    (Store.get oneState.batches "b0" = some oneBatch ∧
     Store.get (spawnWorkerFailurePath oneState "b0" 0 taskA "boom" 0
        4).batches "b0" =
      some (if retryEligible oneState.config taskA then
        { oneBatch with
          tasks := oneBatch.tasks ++ [retryTask taskA]
          results := oneBatch.results ++ [failureResult taskA "boom" 0 4]
          totalTasks := oneBatch.totalTasks + 1
          failedTasks := oneBatch.failedTasks + 1
          workerIds := insertWorkerId oneBatch.workerIds 0 }
      else
        { oneBatch with
          results := oneBatch.results ++ [failureResult taskA "boom" 0 4]
          failedTasks := oneBatch.failedTasks + 1
          workerIds := insertWorkerId oneBatch.workerIds 0 })) ∧
    (Store.get oneStateNoRetry.batches "b0" = some oneBatch ∧
     Store.get (spawnWorkerFailurePath oneStateNoRetry "b0" 0 taskA "boom" 0
        4).batches "b0" =
      some (if retryEligible oneStateNoRetry.config taskA then
        { oneBatch with
          tasks := oneBatch.tasks ++ [retryTask taskA]
          results := oneBatch.results ++ [failureResult taskA "boom" 0 4]
          totalTasks := oneBatch.totalTasks + 1
          failedTasks := oneBatch.failedTasks + 1
          workerIds := insertWorkerId oneBatch.workerIds 0 }
      else
        { oneBatch with
          results := oneBatch.results ++ [failureResult taskA "boom" 0 4]
          failedTasks := oneBatch.failedTasks + 1
          workerIds := insertWorkerId oneBatch.workerIds 0 })) :=
  ⟨⟨by decide,
    c3_every_failed_attempt_recorded oneState "b0" 0 taskA "boom" 0 4
      oneBatch (by decide)⟩,
   ⟨by decide,
    c3_every_failed_attempt_recorded oneStateNoRetry "b0" 0 taskA "boom" 0 4
      oneBatch (by decide)⟩⟩

/- C4 fixtures: cancel a batch with one in-flight execution, then let that
execution resolve successfully and record its result. -/

def c4Pre : Machine :=
  runMachine (mkInit [taskA] cfgRetry) [.dispatch, .markActive 0, .cancelCall]

def c4Post : Machine := runMachine c4Pre [.resolveOk 0 okResult, .micro 0]

/-- C4 counterexample: at cancellation the batch is terminal (`failed`) with
counts (0, 0); the late resolution of the in-flight execution then bumps
`completedTasks` to 1 — the result is not discarded, because
`recordTaskResult` never checks the batch's status. -/
theorem c4_counterexample :
    (Store.get c4Pre.st.batches "b0").map
      (fun b => (b.status, b.completedTasks, b.failedTasks)) =
      some (BatchStatus.failed, 0, 0) ∧
    (Store.get c4Post.st.batches "b0").map
      (fun b => (b.completedTasks, b.failedTasks, b.results.length)) =
      some (1, 0, 1) := by decide

/-- C4 amended: `recordTaskResult` applies its updates regardless of the
batch's status; a late resolution against a cancelled (terminal `failed`)
batch still appends its TaskResult and increments one of the counts. -/
theorem c4_late_result_still_counted (s : FleetState) (batchId : String)
    (workerId : Nat) (r : TaskResult) (b : Batch)
    (hb : Store.get s.batches batchId = some b)
    (hterm : b.status = BatchStatus.failed) :
    (Store.get (recordTaskResult s batchId workerId r).batches batchId).map
      (fun b2 => (b2.completedTasks + b2.failedTasks, b2.results)) =
      some (b.completedTasks + b.failedTasks + 1, b.results ++ [r]) := by
  rw [recordTaskResult_batch workerId r hb]
  cases hr : r.success <;> simp <;> omega

def failedBatch : Batch :=
  { id := "bf", tasks := [taskA], status := .failed, createdAt := 0,
    results := [], totalTasks := 1, completedTasks := 0, failedTasks := 0,
    workerIds := [] }

def failedState : FleetState :=
  { batches := [("bf", failedBatch)], workers := [], config := cfgRetry,
    stats := { totalBatches := 1, totalTasks := 1, completedTasks := 0,
               failedTasks := 0, activeWorkers := 0 } }

theorem c4_witness :
    Store.get failedState.batches "bf" = some failedBatch ∧
    failedBatch.status = BatchStatus.failed ∧
    (Store.get (recordTaskResult failedState "bf" 3 okResult).batches
        "bf").map
      (fun b2 => (b2.completedTasks + b2.failedTasks, b2.results)) =
      some (failedBatch.completedTasks + failedBatch.failedTasks + 1,
        failedBatch.results ++ [okResult]) :=
  ⟨by decide, by decide,
    c4_late_result_still_counted failedState "bf" 3 okResult failedBatch
      (by decide) (by decide)⟩

/-- C6: whenever the dispatcher's `finalizeBatch` actually finalizes a
reachable batch (its guard `completedTasks + failedTasks >= totalTasks`
holds), the counts in fact equal `totalTasks` (by the reachable-state count
invariant), the terminal status written is exactly the spec's pure function
of the counts, and `completedAt` is set; when the guard fails the call
changes nothing. -/
theorem c6_finalization (tasks : List Task) (cfg : FleetManagerConfig)
    (acts : List MAction) (now : Nat) (b : Batch)
    (hb : Store.get (runMachine (mkInit tasks cfg) acts).st.batches
      (runMachine (mkInit tasks cfg) acts).batchId = some b) :
    (b.totalTasks ≤ b.completedTasks + b.failedTasks →
      b.completedTasks + b.failedTasks = b.totalTasks ∧
      Store.get (finalizeBatch (runMachine (mkInit tasks cfg) acts).st
          (runMachine (mkInit tasks cfg) acts).batchId now).batches
          (runMachine (mkInit tasks cfg) acts).batchId =
        some { b with
          status := specTerminalStatus b.completedTasks b.failedTasks
          completedAt := some now }) ∧
    (b.completedTasks + b.failedTasks < b.totalTasks →
      finalizeBatch (runMachine (mkInit tasks cfg) acts).st
        (runMachine (mkInit tasks cfg) acts).batchId now =
        (runMachine (mkInit tasks cfg) acts).st) := by
  have hinv := MInv_run_mkInit tasks cfg acts
  obtain ⟨b0, hb0, heq, hle⟩ := hinv.batchInv
  rw [hb0] at hb
  obtain rfl := Option.some.inj hb
  constructor
  · intro hge
    have hcnt : b0.completedTasks + b0.failedTasks = b0.totalTasks := by omega
    refine ⟨hcnt, ?_⟩
    have hf := finalizeBatch_batch now hb0
    rw [if_pos (by omega :
      b0.completedTasks + b0.failedTasks ≥ b0.totalTasks)] at hf
    rw [hf]
    rfl
  · intro hlt2
    unfold finalizeBatch
    rw [hb0]
    dsimp only
    rw [if_neg (by omega)]

def emptyProcessingBatch : Batch :=
  { id := "b0", tasks := [], status := .processing, createdAt := 0,
    startedAt := some 0, results := [], totalTasks := 0, completedTasks := 0,
    failedTasks := 0, workerIds := [] }

theorem c6_witness :
    Store.get (runMachine (mkInit [] cfgRetry) []).st.batches
      (runMachine (mkInit [] cfgRetry) []).batchId =
      some emptyProcessingBatch ∧
    emptyProcessingBatch.totalTasks ≤
      emptyProcessingBatch.completedTasks + emptyProcessingBatch.failedTasks ∧
    (emptyProcessingBatch.completedTasks + emptyProcessingBatch.failedTasks =
      emptyProcessingBatch.totalTasks ∧
    Store.get (finalizeBatch (runMachine (mkInit [] cfgRetry) []).st
        (runMachine (mkInit [] cfgRetry) []).batchId 7).batches
        (runMachine (mkInit [] cfgRetry) []).batchId =
      some { emptyProcessingBatch with
        status := specTerminalStatus emptyProcessingBatch.completedTasks
          emptyProcessingBatch.failedTasks
        completedAt := some 7 }) :=
  ⟨by decide, by decide,
    (c6_finalization [] cfgRetry [] 7 emptyProcessingBatch (by decide)).1
      (by decide)⟩

/-- C7: in every state reachable by any interleaving of dispatches,
resolutions, retries, cancellations and scalings — that is, at every
observable instant, including between the recording of a failure and the
admission of its retry — the processed batch satisfies
`completedTasks + failedTasks ≤ totalTasks`. -/
theorem c7_count_invariant (tasks : List Task) (cfg : FleetManagerConfig)
    (acts : List MAction) (b : Batch)
    (hb : Store.get (runMachine (mkInit tasks cfg) acts).st.batches
      (runMachine (mkInit tasks cfg) acts).batchId = some b) :
    b.completedTasks + b.failedTasks ≤ b.totalTasks := by
  have hinv := MInv_run_mkInit tasks cfg acts
  obtain ⟨b0, hb0, heq, hle⟩ := hinv.batchInv
  rw [hb0] at hb
  obtain rfl := Option.some.inj hb
  omega

def oneDispatchBatch : Batch :=
  { id := "b0", tasks := [taskA], status := .processing, createdAt := 0,
    startedAt := some 0, results := [], totalTasks := 1, completedTasks := 0,
    failedTasks := 0, workerIds := [] }

theorem c7_witness :
    Store.get (runMachine (mkInit [taskA] cfgOne)
        [MAction.dispatch]).st.batches
      (runMachine (mkInit [taskA] cfgOne) [MAction.dispatch]).batchId =
      some oneDispatchBatch ∧
    oneDispatchBatch.completedTasks + oneDispatchBatch.failedTasks ≤
      oneDispatchBatch.totalTasks :=
  ⟨by decide,
    c7_count_invariant [taskA] cfgOne [MAction.dispatch] oneDispatchBatch
      (by decide)⟩

/-- C8: with the concurrency bound `C = maxConcurrentWorkers` in force when
the batch starts processing, every reachable state of the dispatch loop has
at most `C` in-flight executions, and at most `C` worker handles holding
status `active`. -/
theorem c8_bounded_concurrency (tasks : List Task)
    (cfg : FleetManagerConfig) (acts : List MAction) :
    countActiveWorkers
        (runMachine (mkInit tasks cfg) acts).st.workers ≤
      cfg.maxConcurrentWorkers ∧
    (runMachine (mkInit tasks cfg) acts).inFlight.length ≤
      cfg.maxConcurrentWorkers := by
  have hinv := MInv_run_mkInit tasks cfg acts
  have hmax : (runMachine (mkInit tasks cfg) acts).maxC =
      cfg.maxConcurrentWorkers := by
    rw [runMachine_maxC]
    rfl
  have hfb := hinv.flightBound
  have hac := hinv.activeCount
  have hcq : countActiveProcs (runMachine (mkInit tasks cfg) acts).inFlight ≤
      (runMachine (mkInit tasks cfg) acts).inFlight.length :=
    Store.countQ_le_length _ _
  omega

def zeroState : FleetState :=
  { batches := [], workers := [], config := cfgRetry,
    stats := { totalBatches := 0, totalTasks := 0, completedTasks := 0,
               failedTasks := 0, activeWorkers := 0 } }

/-- C9 counterexample: the global active-worker counter is incremented by
`registerWorker` while the handle still holds status `spawning` — not at the
`spawning → active` transition, which leaves the counter unchanged
(`updateWorkerStatus` adds a delta of 0 for `active`). -/
theorem c9_counterexample :
    (registerWorker zeroState 0 "t0" WorkerStatus.spawning
        3).stats.activeWorkers =
      zeroState.stats.activeWorkers + 1 ∧
    (Store.get (registerWorker zeroState 0 "t0" WorkerStatus.spawning
        3).workers 0).map WorkerInfo.status = some WorkerStatus.spawning ∧
    (updateWorkerStatus (registerWorker zeroState 0 "t0"
        WorkerStatus.spawning 3) 0 WorkerStatus.active
        none).stats.activeWorkers =
      (registerWorker zeroState 0 "t0" WorkerStatus.spawning
        3).stats.activeWorkers := by decide

/-- C9 amended: the counter is incremented at registration (when the handle
is created in status `spawning`), left unchanged by the transition to
`active`, and decremented exactly on a transition to `completed` or
`failed`. -/
theorem c9_counter_semantics (s : FleetState) (workerId : Nat)
    (taskId : String) (status : WorkerStatus) (now : Nat) (w : WorkerInfo)
    (completedAt : Option Nat)
    (hw : Store.get s.workers workerId = some w) :
    (registerWorker s workerId taskId status now).stats.activeWorkers =
      s.stats.activeWorkers + 1 ∧
    (updateWorkerStatus s workerId WorkerStatus.active
        completedAt).stats.activeWorkers = s.stats.activeWorkers ∧
    (updateWorkerStatus s workerId WorkerStatus.completed
        completedAt).stats.activeWorkers = s.stats.activeWorkers - 1 ∧
    (updateWorkerStatus s workerId WorkerStatus.failed
        completedAt).stats.activeWorkers = s.stats.activeWorkers - 1 := by
  refine ⟨rfl, ?_, ?_, ?_⟩ <;>
    · unfold updateWorkerStatus
      rw [hw]
      dsimp only
      simp
      try omega

theorem c9_witness :
    Store.get oneState.workers 0 = some activeWorker0 ∧
    ((registerWorker oneState 0 "t0" WorkerStatus.spawning
        5).stats.activeWorkers = oneState.stats.activeWorkers + 1 ∧
    (updateWorkerStatus oneState 0 WorkerStatus.active
        none).stats.activeWorkers = oneState.stats.activeWorkers ∧
    (updateWorkerStatus oneState 0 WorkerStatus.completed
        none).stats.activeWorkers = oneState.stats.activeWorkers - 1 ∧
    (updateWorkerStatus oneState 0 WorkerStatus.failed
        none).stats.activeWorkers = oneState.stats.activeWorkers - 1) :=
  ⟨by decide,
    c9_counter_semantics oneState 0 "t0" WorkerStatus.spawning 5
      activeWorker0 none (by decide)⟩

end FleetVerif
